import Mathlib

/-!
# Datablip download engine: a shallow embedding

Definitions translated from `internal/downloader/manager.go` and
`internal/api/handlers.go` of the Datablip chunked HTTP downloader,
together with theorems settling the specification claims about the
chunk partitioner, completion, pause, timeouts, merge, progress
accounting, request validation, probe handling and deletion.
-/

namespace Datablip

/-! ## Definitions

### Chunk partitioner

From `startDownload` (`chunkSize := d.TotalSize / int64(d.Chunks)`) and
`downloadChunk` (`startByte := int64(chunkIndex) * chunkSize;
endByte := startByte + chunkSize - 1; if chunkIndex == d.Chunks-1
{ endByte = d.TotalSize - 1 }`).  Sizes are `int64` in Go; both
operands of the division are nonnegative wherever the claims range,
so Lean's `Int` division agrees with Go's truncating division. -/

def chunkSizeOf (totalSize : Int) (chunks : Nat) : Int :=
  totalSize / (chunks : Int)

def startByte (totalSize : Int) (chunks : Nat) (i : Nat) : Int :=
  (i : Int) * chunkSizeOf totalSize chunks

def endByte (totalSize : Int) (chunks : Nat) (i : Nat) : Int :=
  if i = chunks - 1 then totalSize - 1
  else startByte totalSize chunks i + chunkSizeOf totalSize chunks - 1

/-- Byte `b` falls inside chunk `i`'s inclusive range. -/
def inChunk (totalSize : Int) (chunks : Nat) (i : Nat) (b : Int) : Prop :=
  startByte totalSize chunks i ≤ b ∧ b ≤ endByte totalSize chunks i

instance (totalSize : Int) (chunks i : Nat) (b : Int) :
    Decidable (inChunk totalSize chunks i b) := by
  unfold inChunk; infer_instance

/-! ### Download status

The `DownloadStatus` constants of `manager.go`. -/

inductive GoStatus
  | pending
  | downloading
  | paused
  | completed
  | error
deriving DecidableEq

/-! ### Single-file download loop

From `downloadSingleFile` (the `downloadLoop` at lines 374-413 and the
completion epilogue at lines 415-424).  One `ReadResult` models one
`resp.Body.Read(buffer)` call: a read may return bytes with no error,
bytes together with `io.EOF`, or a non-EOF error.  The loop checks the
error first (returning with status `error`), breaks on a zero-byte
read, writes the bytes to the output file, and breaks on `io.EOF`;
afterwards the status is set to `completed` unconditionally — the byte
count is never compared with `d.TotalSize`. -/

inductive ReadResult
  | bytes (n : Nat)
  | bytesEof (n : Nat)
  | readError
deriving DecidableEq

/-- The read loop of `downloadSingleFile`: returns the final status and
the number of bytes written to the output file.  A real execution
always ends in a zero-byte read, an EOF, or an error; the `[]` case is
the (unreachable for such streams) exhaustion of the model's stream. -/
def singleFileLoop : List ReadResult → Nat → GoStatus × Nat
  | [], downloaded => (GoStatus.completed, downloaded)
  | ReadResult.readError :: _, downloaded => (GoStatus.error, downloaded)
  | ReadResult.bytes n :: rest, downloaded =>
      if n = 0 then (GoStatus.completed, downloaded)
      else singleFileLoop rest (downloaded + n)
  | ReadResult.bytesEof n :: _, downloaded => (GoStatus.completed, downloaded + n)

/-- `downloadSingleFile` run on a body stream: final status and output
file size.  Note that `d.TotalSize` is not an input of the loop at all:
no size verification happens on this path. -/
def downloadSingleFile (stream : List ReadResult) : GoStatus × Nat :=
  singleFileLoop stream 0

/-- A stream makes the single-file loop fail exactly when a non-EOF
read error is hit before the body is exhausted. -/
def streamFails : List ReadResult → Bool
  | [] => false
  | ReadResult.readError :: _ => true
  | ReadResult.bytes n :: rest => if n = 0 then false else streamFails rest
  | ReadResult.bytesEof _ :: _ => false

/-! ### Merge and verify

From `mergeChunks` (lines 427-474).  The loop opens chunk file `i`,
copies its contents to the output file, and removes the chunk file
immediately (`os.Remove(chunkFileName)` at line 462) — before the
final size verification.  After the loop, `totalMerged` is compared
with `d.TotalSize`; a mismatch returns an error, with the partial
output left in place and no backing file remaining. -/

structure MergeState where
  totalMerged : Nat
  tempsLeft : Nat
  outputSize : Nat
deriving DecidableEq

def mergeLoop : List Nat → MergeState → MergeState
  | [], s => s
  | size :: rest, s =>
      mergeLoop rest
        { totalMerged := s.totalMerged + size,
          tempsLeft := s.tempsLeft - 1,
          outputSize := s.outputSize + size }

/-- `mergeChunks` on the sizes of the chunk backing files, in index
order: whether verification succeeded, and the resulting file-system
state. -/
def mergeChunks (chunkSizes : List Nat) (totalSize : Nat) : Bool × MergeState :=
  let s := mergeLoop chunkSizes
    { totalMerged := 0, tempsLeft := chunkSizes.length, outputSize := 0 }
  (s.totalMerged == totalSize, s)

/-- The merge step of `startDownload` (lines 174-196): `mergeChunks` is
invoked exactly once, with no retry loop; on error the download goes to
`error`, otherwise to `completed`. -/
def finishChunked (chunkSizes : List Nat) (totalSize : Nat) : GoStatus × MergeState :=
  let r := mergeChunks chunkSizes totalSize
  (if r.1 then GoStatus.completed else GoStatus.error, r.2)

/-! ### Chunk-failure error path

From `startDownload` lines 157-172: worker errors are drained from
`errorChan`; if any exist, the status is set to `error` and the
function returns.  No file is removed on this branch — the temp files
written by the workers (successful or partial) stay on disk. -/

/-- The error-collection branch of `startDownload`.  `tempsOnDisk` is
the set of `chunk_<id>_<index>.tmp` files the workers created, as
(download id, chunk index) pairs; `GoStatus.downloading` as the result
status means the branch was not taken and control proceeds to the
merge. -/
def chunkErrorFinish (chunkErrors : List String)
    (tempsOnDisk : List (String × Nat)) : GoStatus × List (String × Nat) :=
  (if chunkErrors.isEmpty then GoStatus.downloading else GoStatus.error,
   tempsOnDisk)

/-! ### Probe and dispatch

From `startDownload` lines 107-131: only a transport error of the HEAD
request produces `error`; `d.TotalSize = resp.ContentLength` is stored
without any validation (Go's `ContentLength` is `-1` when unknown),
then the path is chosen from `Accept-Ranges` and the chunk count. -/

inductive Dispatch
  | probeError
  | singleFile
  | chunked
deriving DecidableEq

def startDispatch (headOk : Bool) (contentLength : Int)
    (acceptRangesBytes : Bool) (chunks : Int) : Dispatch :=
  if !headOk then Dispatch.probeError
  else if !acceptRangesBytes || chunks == 1 then Dispatch.singleFile
  else Dispatch.chunked

/-! ### AddDownload

From `Manager.AddDownload` (lines 65-97) and the API handler
`createDownload` (`handlers.go` lines 54-85).  Neither layer inspects
`url` or `chunks`: a `Download` record is built in status `pending`
and `nil` is returned for the error on every input.  (`idGen` and
`pathIdGen` stand for the two separate `generateID()` calls; a
negative Go `chunks` would panic in `make([]float64, chunks)`, so the
model takes the count as a `Nat`, which covers the claim's out-of-range
inputs `0` and `> 16`.) -/

structure DownloadRec where
  id : String
  url : String
  filename : String
  outputPath : String
  status : GoStatus
  chunks : Nat
  chunkProgressLen : Nat
  connectTimeout : String
  readTimeout : String
deriving DecidableEq

def addDownload (idGen pathIdGen url filename : String) (chunks : Nat)
    (connectTimeout readTimeout : String) : DownloadRec × Option String :=
  let outputPath :=
    if filename = "" then "downloads/download_" ++ pathIdGen
    else "downloads/" ++ filename
  ({ id := idGen, url := url, filename := filename,
     outputPath := outputPath, status := GoStatus.pending,
     chunks := chunks, chunkProgressLen := chunks,
     connectTimeout := connectTimeout, readTimeout := readTimeout },
   none)

/-! ### Registry: get and delete

From `Manager.GetDownload` (lines 553-562) and `Manager.DeleteDownload`
(lines 608-631).  The manager state also carries the on-disk files the
claims talk about: temp chunk files as (download id, chunk index) pairs
and output files by download id.  `DeleteDownload` removes the
download's temp files only when its status is `downloading`; in every
case it then deletes the registry entry.  It never touches output
files. -/

structure ManagerState where
  downloads : List (String × GoStatus)
  tempFiles : List (String × Nat)
  outputFiles : List String
deriving DecidableEq

def lookupStatus (m : ManagerState) (id : String) : Option GoStatus :=
  (m.downloads.find? (fun p => p.1 == id)).map (fun p => p.2)

/-- `GetDownload`: the snapshot when the id is present, else the
"download not found" error (modelled as `none`). -/
def getDownload (m : ManagerState) (id : String) : Option GoStatus :=
  lookupStatus m id

def deleteDownload (m : ManagerState) (id : String) :
    ManagerState × Option String :=
  match lookupStatus m id with
  | none => (m, some "download not found")
  | some st =>
      let m1 :=
        if st = GoStatus.downloading then
          { m with tempFiles := m.tempFiles.filter (fun q => q.1 != id) }
        else m
      ({ m1 with downloads := m1.downloads.filter (fun q => q.1 != id) },
       none)

/-! ### Pause and resume

From `PauseDownload` (lines 476-496), `ResumeDownload` (lines 498-518)
and the worker loop's `select` (lines 241-247 of `downloadChunk`; the
loop of `downloadSingleFile` is identical).  `d.pauseChan` is a single
unbuffered channel shared by all workers of the download.  A pause
request sets the status and performs one send on the channel, which
rendezvouses with exactly one worker: either a running worker's outer
receive (which then parks on the inner receive), or — since the same
channel also carries resume values — a parked worker's inner receive
(which unparks it).  Likewise a resume send may be consumed by a
running worker's outer receive, which parks it.  The labelled
transition system below models one download with `n` workers;
`written i` counts the bytes worker `i` has written to its backing
file, and `paused` is the `StatusPaused`/`StatusDownloading` flag the
requests check. -/

inductive PLabel
  | write (i bytes : Nat)
  | pauseSignal (i : Nat)
  | resumeSignal (i : Nat)
  | resumeStray (i : Nat)
deriving DecidableEq

def isResumeLabel : PLabel → Bool
  | PLabel.resumeSignal _ => true
  | PLabel.resumeStray _ => true
  | _ => false

structure PauseSystem where
  n : Nat
  parked : Nat → Bool
  written : Nat → Nat
  paused : Bool

inductive PStep : PauseSystem → PLabel → PauseSystem → Prop
  | write (s : PauseSystem) (i bytes : Nat) (hi : i < s.n) (hb : 0 < bytes)
      (hp : s.parked i = false) :
      PStep s (PLabel.write i bytes)
        { s with written := Function.update s.written i (s.written i + bytes) }
  | pauseRendezvous (s : PauseSystem) (i : Nat) (hi : i < s.n)
      (hp : s.parked i = false) (hs : s.paused = false) :
      PStep s (PLabel.pauseSignal i)
        { s with parked := Function.update s.parked i true, paused := true }
  | pauseToParked (s : PauseSystem) (i : Nat) (hi : i < s.n)
      (hp : s.parked i = true) (hs : s.paused = false) :
      PStep s (PLabel.pauseSignal i)
        { s with parked := Function.update s.parked i false, paused := true }
  | resumeRendezvous (s : PauseSystem) (i : Nat) (hi : i < s.n)
      (hp : s.parked i = true) (hs : s.paused = true) :
      PStep s (PLabel.resumeSignal i)
        { s with parked := Function.update s.parked i false, paused := false }
  | resumeToRunning (s : PauseSystem) (i : Nat) (hi : i < s.n)
      (hp : s.parked i = false) (hs : s.paused = true) :
      PStep s (PLabel.resumeStray i)
        { s with parked := Function.update s.parked i true, paused := false }

inductive PTrace : PauseSystem → List PLabel → PauseSystem → Prop
  | nil (s : PauseSystem) : PTrace s [] s
  | cons (s : PauseSystem) (l : PLabel) (s1 : PauseSystem)
      (ls : List PLabel) (s2 : PauseSystem) :
      PStep s l s1 → PTrace s1 ls s2 → PTrace s (l :: ls) s2

/-! ### Chunk fetch read loop and read timing

From `downloadChunk` lines 217-296.  The `http.Client{}` at line 217
is constructed with no timeout, and `d.ReadTimeout` — stored by
`AddDownload` — is never read anywhere in the package.  A `TimedRead`
records, purely for the model, the milliseconds elapsed since the
previous read returned; the source loop never inspects any clock. -/

structure TimedRead where
  gapMs : Nat
  res : ReadResult
deriving DecidableEq

/-- Outcomes of `downloadChunk` after a 206 response: one constructor
per `return` site of the source (read error at line 250, byte-count
mismatch at line 284) plus success; no timeout-shaped outcome exists
in the source. -/
inductive ChunkOutcome
  | success (downloaded : Nat)
  | readFailed (downloaded : Nat)
  | incomplete (downloaded : Nat)
deriving DecidableEq

def chunkReadLoop : List TimedRead → Nat → Bool × Nat
  | [], downloaded => (true, downloaded)
  | ⟨_, ReadResult.readError⟩ :: _, downloaded => (false, downloaded)
  | ⟨_, ReadResult.bytes n⟩ :: rest, downloaded =>
      if n = 0 then (true, downloaded)
      else chunkReadLoop rest (downloaded + n)
  | ⟨_, ReadResult.bytesEof n⟩ :: _, downloaded => (true, downloaded + n)

def downloadChunkOutcome (stream : List TimedRead)
    (actualChunkSize : Nat) : ChunkOutcome :=
  match chunkReadLoop stream 0 with
  | (false, dl) => ChunkOutcome.readFailed dl
  | (true, dl) =>
      if dl = actualChunkSize then ChunkOutcome.success dl
      else ChunkOutcome.incomplete dl

/-! ### Progress aggregation

From `downloadChunk` line 264
(`d.ChunkProgress[chunkIndex] = float64(downloaded)/float64(actualChunkSize)*100`)
and `updateProgress` lines 574-580
(`d.Progress = totalProgress / float64(d.Chunks)`,
`d.Downloaded = int64(float64(d.TotalSize) * d.Progress / 100)`).
The float64 arithmetic is modelled with exact rationals; on the inputs
of the theorem below every intermediate float64 value of the source is
exactly representable, so the model computes the very numbers the
source does.  Go's `int64(x)` truncates toward zero, which equals the
floor on nonnegative values. -/

def chunkProgressOf (downloaded actualChunkSize : ℚ) : ℚ :=
  downloaded / actualChunkSize * 100

def progressOf (chunkProgress : List ℚ) (chunks : Nat) : ℚ :=
  chunkProgress.sum / (chunks : ℚ)

def updateProgressDownloaded (totalSize : Int) (chunkProgress : List ℚ)
    (chunks : Nat) : Int :=
  ⌊(totalSize : ℚ) * progressOf chunkProgress chunks / 100⌋

/-! ## Theorems -/

lemma chunkSizeOf_nonneg (totalSize : Int) (chunks : Nat)
    (ht : 1 ≤ totalSize) : 0 ≤ chunkSizeOf totalSize chunks :=
  Int.ediv_nonneg (by linarith) (by positivity)

lemma no_overlap_of_lt (totalSize : Int) (n : Nat) (ht : 1 ≤ totalSize)
    (i j : Nat) (b : Int) (hij : i < j) (hj : j < n)
    (hi : inChunk totalSize n i b) (hjb : inChunk totalSize n j b) : False := by
  set c := chunkSizeOf totalSize n with hc
  have hc0 : 0 ≤ c := chunkSizeOf_nonneg totalSize n ht
  have hin : i ≠ n - 1 := by omega
  have hiend : endByte totalSize n i = (i : Int) * c + c - 1 := by
    simp [endByte, startByte, hin, hc]
  have h1 : b ≤ (i : Int) * c + c - 1 := hiend ▸ hi.2
  have h2 : (j : Int) * c ≤ b := hjb.1
  have h3 : ((i : Int) + 1) * c ≤ (j : Int) * c := by
    have : (i : Int) + 1 ≤ (j : Int) := by exact_mod_cast hij
    exact mul_le_mul_of_nonneg_right this hc0
  nlinarith

/-- C1: for `total_size ≥ 1` and chunk count `n ≥ 1`, the partition
computed by the engine (`base = total_size / n`; chunk `i < n-1` spans
`[i*base, (i+1)*base - 1]`; the last chunk ends at `total_size - 1`)
consists of `n` contiguous, non-overlapping ranges covering
`[0, total_size - 1]` exactly. -/
theorem chunk_partition_correct (totalSize : Int) (n : Nat)
    (ht : 1 ≤ totalSize) (hn : 1 ≤ n) :
    startByte totalSize n 0 = 0 ∧
    endByte totalSize n (n - 1) = totalSize - 1 ∧
    (∀ i, i + 1 < n →
      endByte totalSize n i + 1 = startByte totalSize n (i + 1)) ∧
    (∀ b : Int, 0 ≤ b → b ≤ totalSize - 1 →
      ∃ i, i < n ∧ inChunk totalSize n i b) ∧
    (∀ i j, i < n → j < n → ∀ b : Int,
      inChunk totalSize n i b → inChunk totalSize n j b → i = j) := by
  set c := chunkSizeOf totalSize n with hc
  have hc0 : 0 ≤ c := chunkSizeOf_nonneg totalSize n ht
  refine ⟨by simp [startByte], by simp [endByte], ?_, ?_, ?_⟩
  · intro i hi
    have hin : i ≠ n - 1 := by omega
    simp only [endByte, startByte, hin, if_false]
    push_cast
    ring
  · intro b hb hbt
    rcases eq_or_lt_of_le hc0 with hczero | hcpos
    · refine ⟨n - 1, by omega, ?_, ?_⟩
      · simp only [startByte, ← hc, ← hczero]
        simpa using hb
      · simp only [endByte, if_pos rfl]
        exact hbt
    · set q : Int := b / c with hq
      have hq0 : 0 ≤ q := Int.ediv_nonneg hb (le_of_lt hcpos)
      have hqc : q * c ≤ b := Int.ediv_mul_le b (ne_of_gt hcpos)
      have hblt : b < (q + 1) * c := Int.lt_ediv_add_one_mul_self b hcpos
      by_cases hqn : q < ((n : Int) - 1)
      · refine ⟨q.toNat, ?_, ?_, ?_⟩
        · have hqq : ((q.toNat : Int)) = q := Int.toNat_of_nonneg hq0
          omega
        · have hqq : ((q.toNat : Int)) = q := Int.toNat_of_nonneg hq0
          simpa [startByte, ← hc, hqq] using hqc
        · have hqq : ((q.toNat : Int)) = q := Int.toNat_of_nonneg hq0
          have hne : q.toNat ≠ n - 1 := by omega
          simp only [endByte, startByte, hne, if_false, ← hc, hqq]
          nlinarith
      · refine ⟨n - 1, by omega, ?_, ?_⟩
        · have h1 : ((n : Int) - 1) ≤ q := by omega
          have h2 : ((n : Int) - 1) * c ≤ q * c :=
            mul_le_mul_of_nonneg_right h1 hc0
          have h3 : (((n - 1 : Nat) : Int)) = (n : Int) - 1 := by omega
          simp only [startByte, ← hc, h3]
          linarith
        · simp only [endByte, if_pos rfl]
          exact hbt
  · intro i j hi hj b hib hjb
    rcases lt_trichotomy i j with h | h | h
    · exact absurd (no_overlap_of_lt totalSize n ht i j b h hj hib hjb) not_false
    · exact h
    · exact absurd (no_overlap_of_lt totalSize n ht j i b h hi hjb hib) not_false

/-- Witness for C1: the partition of a 7-byte file into 3 chunks. -/
theorem chunk_partition_correct_witness :
    (1 : Int) ≤ 7 ∧ 1 ≤ 3 ∧
    (startByte 7 3 0 = 0 ∧
     endByte 7 3 (3 - 1) = 7 - 1 ∧
     (∀ i, i + 1 < 3 →
       endByte 7 3 i + 1 = startByte 7 3 (i + 1)) ∧
     (∀ b : Int, 0 ≤ b → b ≤ 7 - 1 →
       ∃ i, i < 3 ∧ inChunk 7 3 i b) ∧
     (∀ i j, i < 3 → j < 3 → ∀ b : Int,
       inChunk 7 3 i b → inChunk 7 3 j b → i = j)) :=
  ⟨by norm_num, by norm_num,
   chunk_partition_correct 7 3 (by norm_num) (by norm_num)⟩

lemma singleFileLoop_completed_iff (stream : List ReadResult) (d : Nat) :
    (singleFileLoop stream d).1 = GoStatus.completed ↔
      streamFails stream = false := by
  induction stream generalizing d with
  | nil => simp [singleFileLoop, streamFails]
  | cons a t ih =>
      cases a with
      | bytes n =>
          by_cases h : n = 0
          · simp [singleFileLoop, streamFails, h]
          · simp [singleFileLoop, streamFails, h, ih]
      | bytesEof n => simp [singleFileLoop, streamFails]
      | readError => simp [singleFileLoop, streamFails]

lemma mergeLoop_spec (l : List Nat) (s : MergeState) :
    (mergeLoop l s).totalMerged = s.totalMerged + l.sum ∧
    (mergeLoop l s).tempsLeft = s.tempsLeft - l.length ∧
    (mergeLoop l s).outputSize = s.outputSize + l.sum := by
  induction l generalizing s with
  | nil => simp [mergeLoop]
  | cons a t ih =>
      rcases ih { totalMerged := s.totalMerged + a, tempsLeft := s.tempsLeft - 1,
                  outputSize := s.outputSize + a } with ⟨h1, h2, h3⟩
      dsimp only at h1 h2 h3
      simp only [mergeLoop, List.sum_cons, List.length_cons]
      exact ⟨by omega, by omega, by omega⟩

/-- C2 (amended): on the chunked path, `completed` does imply the
output file has size `total_size` with every temporary chunk file
removed; the single-file path, however, performs no size verification —
it reaches `completed` exactly when the body stream ends without a
non-EOF read error, whatever the byte count. -/
theorem completed_size_chunked_only :
    (∀ (sizes : List Nat) (total : Nat),
       (finishChunked sizes total).1 = GoStatus.completed →
       (finishChunked sizes total).2.outputSize = total ∧
       (finishChunked sizes total).2.tempsLeft = 0) ∧
    (∀ stream : List ReadResult,
       (downloadSingleFile stream).1 = GoStatus.completed ↔
       streamFails stream = false) := by
  constructor
  · intro sizes total h
    rcases mergeLoop_spec sizes
      { totalMerged := 0, tempsLeft := sizes.length, outputSize := 0 } with
      ⟨h1, h2, h3⟩
    dsimp only at h1 h2 h3
    simp only [finishChunked, mergeChunks] at h ⊢
    rcases hb : (mergeLoop sizes
        { totalMerged := 0, tempsLeft := sizes.length,
          outputSize := 0 }).totalMerged == total with _ | _
    · simp [hb] at h
    · have heq := eq_of_beq hb
      exact ⟨by omega, by omega⟩
  · intro stream
    exact singleFileLoop_completed_iff stream 0

/-- Witness for C2: a 7-byte chunked download with chunk files of
sizes 3 and 4 completes with output size 7 and no temp files left. -/
theorem completed_size_chunked_only_witness :
    (finishChunked [3, 4] 7).1 = GoStatus.completed ∧
    ((finishChunked [3, 4] 7).2.outputSize = 7 ∧
     (finishChunked [3, 4] 7).2.tempsLeft = 0) :=
  ⟨by decide, completed_size_chunked_only.1 ([3, 4]) 7 (by decide)⟩

/-- Counterexample for C2 as stated: with `total_size = 10`, the
single-file path reaches `completed` on a body that delivered only 5
bytes, leaving an output file of size 5 ≠ 10 (`downloadSingleFile`
never consults the probed size). -/
theorem single_file_no_size_check_cex :
    ¬ (∀ stream : List ReadResult,
        (downloadSingleFile stream).1 = GoStatus.completed →
        (downloadSingleFile stream).2 = 10) := by
  intro h
  exact absurd (h ([ReadResult.bytesEof 5]) (by decide)) (by decide)

/-- C5 (amended): temporary chunk files are removed during a successful
merge and on delete-while-downloading, but the chunk-failure error path
performs no cleanup: the download enters `error` with every existing
temp file left on disk. -/
theorem chunk_error_leaves_temps (errs : List String)
    (temps : List (String × Nat)) (h : errs ≠ []) :
    (chunkErrorFinish errs temps).1 = GoStatus.error ∧
    (chunkErrorFinish errs temps).2 = temps := by
  cases errs with
  | nil => exact absurd rfl h
  | cons a t => exact ⟨rfl, rfl⟩

/-- Witness for C5: one failed chunk, one temp file on disk. -/
theorem chunk_error_leaves_temps_witness :
    (["chunk 1 failed: boom"] : List String) ≠ [] ∧
    ((chunkErrorFinish ["chunk 1 failed: boom"] [(("d1" : String), 0)]).1 =
       GoStatus.error ∧
     (chunkErrorFinish ["chunk 1 failed: boom"] [(("d1" : String), 0)]).2 =
       [(("d1" : String), 0)]) :=
  ⟨by simp, chunk_error_leaves_temps _ _ (by simp)⟩

/-- Counterexample for C5 as stated: a download whose chunk 1 failed
enters `error` while chunk 0's `chunk_d1_0.tmp` file remains on disk. -/
theorem chunk_error_cleanup_cex :
    ¬ (∀ (errs : List String) (temps : List (String × Nat)),
        (chunkErrorFinish errs temps).1 = GoStatus.error →
        (chunkErrorFinish errs temps).2 = []) := by
  intro h
  have := h (["chunk 1 failed: boom"]) ([(("d1" : String), 0)]) rfl
  simp [chunkErrorFinish] at this

/-- C6 (amended): the merge is attempted exactly once, and every chunk
backing file is removed while merging — before verification — so on a
verification mismatch no backing file remains for any retry; the
download enters `error` directly and the partial output (holding the
concatenation of all chunk files) is not deleted. -/
theorem merge_single_attempt_removes_temps (sizes : List Nat) (total : Nat) :
    (mergeChunks sizes total).2.tempsLeft = 0 ∧
    ((mergeChunks sizes total).1 = false →
      (finishChunked sizes total).1 = GoStatus.error ∧
      (finishChunked sizes total).2.outputSize = sizes.sum) := by
  rcases mergeLoop_spec sizes
    { totalMerged := 0, tempsLeft := sizes.length, outputSize := 0 } with
    ⟨h1, h2, h3⟩
  dsimp only at h1 h2 h3
  constructor
  · simp only [mergeChunks]
    omega
  · intro hfail
    simp only [mergeChunks] at hfail
    simp only [finishChunked, mergeChunks, hfail]
    simp only [Bool.false_eq_true, if_false]
    exact ⟨by trivial, by omega⟩

/-- Witness for C6: chunk files of sizes 5 and 4 against a probed total
of 10 fail verification on the single attempt, with no temps left. -/
theorem merge_single_attempt_removes_temps_witness :
    (mergeChunks [5, 4] 10).2.tempsLeft = 0 ∧
    ((mergeChunks [5, 4] 10).1 = false ∧
     ((finishChunked [5, 4] 10).1 = GoStatus.error ∧
      (finishChunked [5, 4] 10).2.outputSize = [5, 4].sum)) :=
  ⟨(merge_single_attempt_removes_temps ([5, 4]) 10).1, by decide,
   (merge_single_attempt_removes_temps ([5, 4]) 10).2 (by decide)⟩

/-- Counterexample for C6 as stated: after a failed merge verification
(sizes 5+4 against total 10) no backing file remains, so no retry could
ever re-read them. -/
theorem merge_retry_cex :
    ¬ (∀ (sizes : List Nat) (total : Nat),
        (mergeChunks sizes total).1 = false →
        0 < (mergeChunks sizes total).2.tempsLeft) := by
  intro h
  exact absurd (h ([5, 4]) 10 (by decide)) (by decide)

/-- C8 (amended): no validation happens at creation — for every url
(empty included) and every chunk count, `AddDownload` registers a
`Download` in status `pending` and returns no error. -/
theorem addDownload_no_validation (idGen pathIdGen url filename : String)
    (chunks : Nat) (cT rT : String) :
    (addDownload idGen pathIdGen url filename chunks cT rT).2 = none ∧
    (addDownload idGen pathIdGen url filename chunks cT rT).1.status =
      GoStatus.pending ∧
    (addDownload idGen pathIdGen url filename chunks cT rT).1.url = url ∧
    (addDownload idGen pathIdGen url filename chunks cT rT).1.chunks = chunks :=
  ⟨rfl, rfl, rfl, rfl⟩

/-- Counterexample for C8 as stated: the request with empty url and
`chunks = 0` (outside `[1,16]`) is not rejected — a pending `Download`
is created and the returned error is `nil`. -/
theorem addDownload_validation_cex :
    ¬ (∀ (idGen pathIdGen url filename : String) (chunks : Nat)
        (cT rT : String),
        url = "" ∨ chunks < 1 ∨ 16 < chunks →
        ((addDownload idGen pathIdGen url filename chunks cT rT).2).isSome =
          true) := by
  intro h
  have := h ("a") ("b") ("") ("f.bin") 0 ("30s") ("10m") (Or.inl rfl)
  simp [addDownload] at this

/-- C9 (amended): after a successful HEAD request the engine never
fails over the probed size — `resp.ContentLength` is stored without
validation, and the download proceeds to the single-file fetch when
range support is absent or `chunks == 1`, and to the chunked fetch
otherwise, even when the Content-Length is unknown (`-1`) or `≤ 0`. -/
theorem probe_size_never_checked (contentLength : Int) (acceptRanges : Bool)
    (chunks : Int) :
    startDispatch true contentLength acceptRanges chunks ≠
      Dispatch.probeError ∧
    (startDispatch true contentLength acceptRanges chunks =
        Dispatch.singleFile ↔ (acceptRanges = false ∨ chunks = 1)) := by
  cases acceptRanges <;> by_cases h : chunks = 1 <;>
    simp [startDispatch, h]

/-- Witness for C9: unknown Content-Length (-1) with range support and
4 requested chunks dispatches to the chunked fetch, not to an error. -/
theorem probe_size_never_checked_witness :
    startDispatch true (-1) true 4 ≠ Dispatch.probeError ∧
    (startDispatch true (-1) true 4 = Dispatch.singleFile ↔
      (true = false ∨ (4 : Int) = 1)) :=
  probe_size_never_checked (-1) true 4

/-- Counterexample for C9 as stated: a probe answering with unknown
Content-Length (-1) and no range support proceeds to the single-file
fetch instead of failing. -/
theorem probe_unknown_size_cex :
    startDispatch true (-1) false 4 = Dispatch.singleFile ∧
    Dispatch.singleFile ≠ Dispatch.probeError :=
  ⟨rfl, by decide⟩

lemma find?_eq_none_after_filter (l : List (String × GoStatus)) (id : String) :
    ((l.filter (fun q => q.1 != id)).find? (fun p => p.1 == id)) = none := by
  induction l with
  | nil => rfl
  | cons a t ih =>
      by_cases h : a.1 = id
      · simp [List.filter_cons, h, ih]
      · simp [List.filter_cons, h, List.find?_cons, ih]

/-- C10: deleting a download whose status is not `downloading` removes
only the registry entry: the delete succeeds, no temp chunk file and no
output file is touched (a paused download's partial temp files stay on
disk), and a subsequent get for the id reports not-found. -/
theorem delete_non_downloading_frame (m : ManagerState) (id : String)
    (st : GoStatus) (h1 : lookupStatus m id = some st)
    (h2 : st ≠ GoStatus.downloading) :
    (deleteDownload m id).2 = none ∧
    (deleteDownload m id).1.tempFiles = m.tempFiles ∧
    (deleteDownload m id).1.outputFiles = m.outputFiles ∧
    getDownload (deleteDownload m id).1 id = none := by
  have hd : deleteDownload m id =
      ({ m with downloads := m.downloads.filter (fun q => q.1 != id) },
       none) := by
    unfold deleteDownload
    rw [h1]
    simp [h2]
  rw [hd]
  refine ⟨rfl, rfl, rfl, ?_⟩
  simp [getDownload, lookupStatus, find?_eq_none_after_filter]

/-- Witness for C10: deleting a paused download with two temp chunk
files leaves both files while the registry entry disappears. -/
theorem delete_non_downloading_frame_witness :
    lookupStatus
      { downloads := [(("d1" : String), GoStatus.paused)],
        tempFiles := [(("d1" : String), 0), (("d1" : String), 1)],
        outputFiles := [] } ("d1") = some GoStatus.paused ∧
    GoStatus.paused ≠ GoStatus.downloading ∧
    ((deleteDownload
        { downloads := [(("d1" : String), GoStatus.paused)],
          tempFiles := [(("d1" : String), 0), (("d1" : String), 1)],
          outputFiles := [] } ("d1")).2 = none ∧
     (deleteDownload
        { downloads := [(("d1" : String), GoStatus.paused)],
          tempFiles := [(("d1" : String), 0), (("d1" : String), 1)],
          outputFiles := [] } ("d1")).1.tempFiles =
       [(("d1" : String), 0), (("d1" : String), 1)] ∧
     (deleteDownload
        { downloads := [(("d1" : String), GoStatus.paused)],
          tempFiles := [(("d1" : String), 0), (("d1" : String), 1)],
          outputFiles := [] } ("d1")).1.outputFiles = [] ∧
     getDownload
       (deleteDownload
          { downloads := [(("d1" : String), GoStatus.paused)],
            tempFiles := [(("d1" : String), 0), (("d1" : String), 1)],
            outputFiles := [] } ("d1")).1 ("d1") = none) :=
  ⟨by decide, by decide,
   delete_non_downloading_frame _ _ GoStatus.paused (by decide) (by decide)⟩

/-- C3 (amended): a pause request parks exactly the one worker that
rendezvoused with the single channel send; as long as no resume
request follows, that worker stays parked and writes no further bytes
to its backing file — but sibling workers are untouched and may keep
writing, so only for `n = 1` does pause stop all writes. -/
theorem pause_parks_single_worker :
    (∀ (s s' : PauseSystem) (i : Nat),
       PStep s (PLabel.pauseSignal i) s' → s.parked i = false →
       s'.paused = true ∧ s'.parked i = true ∧
       ∀ j, j ≠ i → s'.parked j = s.parked j ∧ s'.written j = s.written j) ∧
    (∀ (s : PauseSystem) (ls : List PLabel) (s' : PauseSystem) (i : Nat),
       PTrace s ls s' → (∀ l ∈ ls, isResumeLabel l = false) →
       s.paused = true → s.parked i = true →
       s'.paused = true ∧ s'.parked i = true ∧ s'.written i = s.written i) ∧
    (∀ (s : PauseSystem) (ls : List PLabel) (s' : PauseSystem),
       PTrace s ls s' → (∀ l ∈ ls, isResumeLabel l = false) →
       s.paused = true → s.n = 1 → s.parked 0 = true →
       s'.written = s.written) := by
  refine ⟨?_, ?_, ?_⟩
  · intro s s' i hstep hfalse
    cases hstep with
    | pauseRendezvous s1 hj hp hs =>
        refine ⟨rfl, by simp [Function.update], ?_⟩
        intro j hj2
        exact ⟨by simp [Function.update, hj2], rfl⟩
    | pauseToParked s1 hj hp hs =>
        rw [hfalse] at hp
        cases hp
  · intro s ls s' i htr
    induction htr with
    | nil => exact fun _ hps hpk => ⟨hps, hpk, rfl⟩
    | cons s0 l s1 ls2 s2 hstep htr2 ih =>
        intro hnr hps hpk
        have hnr2 : ∀ l ∈ ls2, isResumeLabel l = false :=
          fun l hl => hnr l (List.mem_cons_of_mem _ hl)
        cases hstep with
        | write j bytes hj hb hp =>
            have hij : j ≠ i := by
              intro he
              rw [he, hpk] at hp
              cases hp
            have hrec := ih hnr2 hps hpk
            refine ⟨hrec.1, hrec.2.1, ?_⟩
            rw [hrec.2.2]
            simp [Function.update, Ne.symm hij]
        | pauseRendezvous j hj hp hs => rw [hps] at hs; cases hs
        | pauseToParked j hj hp hs => rw [hps] at hs; cases hs
        | resumeRendezvous j hj hp hs =>
            have := hnr (PLabel.resumeSignal j) (List.mem_cons_self _ _)
            simp [isResumeLabel] at this
        | resumeToRunning j hj hp hs =>
            have := hnr (PLabel.resumeStray j) (List.mem_cons_self _ _)
            simp [isResumeLabel] at this
  · intro s ls s' htr
    induction htr with
    | nil => exact fun _ _ _ _ => rfl
    | cons s0 l s1 ls2 s2 hstep htr2 ih =>
        intro hnr hps hn hpk
        cases hstep with
        | write j bytes hj hb hp =>
            have hj0 : j = 0 := by omega
            rw [hj0, hpk] at hp
            cases hp
        | pauseRendezvous j hj hp hs => rw [hps] at hs; cases hs
        | pauseToParked j hj hp hs => rw [hps] at hs; cases hs
        | resumeRendezvous j hj hp hs =>
            have := hnr (PLabel.resumeSignal j) (List.mem_cons_self _ _)
            simp [isResumeLabel] at this
        | resumeToRunning j hj hp hs =>
            have := hnr (PLabel.resumeStray j) (List.mem_cons_self _ _)
            simp [isResumeLabel] at this

/-- Witness for C3: with two workers of which worker 0 is parked under
an active pause, the empty (resume-free) continuation leaves worker 0
parked with its byte count unchanged. -/
theorem pause_parks_single_worker_witness :
    PauseSystem.paused
      { n := 2, parked := fun j => j == 0, written := fun _ => 0,
        paused := true } = true ∧
    PauseSystem.parked
      { n := 2, parked := fun j => j == 0, written := fun _ => 0,
        paused := true } 0 = true ∧
    PauseSystem.written
      { n := 2, parked := fun j => j == 0, written := fun _ => 0,
        paused := true } 0 =
      PauseSystem.written
        { n := 2, parked := fun j => j == 0, written := fun _ => 0,
          paused := true } 0 :=
  pause_parks_single_worker.2.1 _ [] _ 0 (PTrace.nil _) (by simp) rfl rfl

/-- Counterexample for C3 as stated: with two chunk workers, after the
pause request returns (worker 0 rendezvoused and parked), worker 1 can
still take a read-and-write step that lands 5 new bytes in its backing
file before any resume request. -/
theorem pause_all_workers_cex :
    ¬ (∀ (s0 s s' : PauseSystem) (i : Nat) (l : PLabel),
        PStep s0 (PLabel.pauseSignal i) s →
        PStep s l s' → isResumeLabel l = false →
        s'.written = s.written) := by
  intro h
  have hpause : PStep
      { n := 2, parked := fun _ => false, written := fun _ => 0,
        paused := false }
      (PLabel.pauseSignal 0)
      { n := 2, parked := Function.update (fun _ => false) 0 true,
        written := fun _ => 0, paused := true } :=
    PStep.pauseRendezvous
      { n := 2, parked := fun _ => false, written := fun _ => 0,
        paused := false } 0 (by norm_num) rfl rfl
  have hwrite : PStep
      { n := 2, parked := Function.update (fun _ => false) 0 true,
        written := fun _ => 0, paused := true }
      (PLabel.write 1 5)
      { n := 2, parked := Function.update (fun _ => false) 0 true,
        written := Function.update (fun _ => 0) 1 (0 + 5),
        paused := true } :=
    PStep.write
      { n := 2, parked := Function.update (fun _ => false) 0 true,
        written := fun _ => 0, paused := true } 1 5 (by norm_num)
      (by norm_num) (by simp [Function.update])
  have heq := h _ _ _ 0 (PLabel.write 1 5) hpause hwrite rfl
  have h5 := congrFun heq 1
  simp [Function.update] at h5

lemma chunkReadLoop_gap_irrelevant (stream : List TimedRead)
    (f : Nat → Nat) (d : Nat) :
    chunkReadLoop (stream.map (fun r => ⟨f r.gapMs, r.res⟩)) d =
      chunkReadLoop stream d := by
  induction stream generalizing d with
  | nil => rfl
  | cons a t ih =>
      cases a with
      | mk gap res =>
          cases res with
          | bytes n =>
              by_cases h : n = 0 <;>
                simp [List.map_cons, chunkReadLoop, h, ih]
          | bytesEof n => rfl
          | readError => rfl

/-- C4: the chunk fetch's result is a function of the read results
alone — rescaling every inter-read gap (say, stretching each to ten
minutes) never changes the outcome — and, concretely, a body that goes
silent for 600 000 ms before delivering its 10 bytes still succeeds.
`read_timeout` is stored by `AddDownload` but never consulted, and the
HTTP client is built with no timeout: no inactivity bound exists. -/
theorem chunk_fetch_ignores_read_timing :
    (∀ (stream : List TimedRead) (size : Nat) (f : Nat → Nat),
       downloadChunkOutcome (stream.map (fun r => ⟨f r.gapMs, r.res⟩))
           size =
         downloadChunkOutcome stream size) ∧
    downloadChunkOutcome [⟨600000, ReadResult.bytesEof 10⟩] 10 =
      ChunkOutcome.success 10 := by
  refine ⟨?_, by decide⟩
  intro stream size f
  unfold downloadChunkOutcome
  rw [chunkReadLoop_gap_irrelevant]

/-- C7: at the failing input — total_size 1 000 003, 4 chunks (sizes
250 000, 250 000, 250 000, 250 003), last chunk fully downloaded,
others untouched — `updateProgress` writes `Downloaded = 250000`,
re-derived from the average chunk percentage, while the sum of the
per-chunk downloaded counters is 250 003.  On these inputs every
float64 intermediate of the source (100, 25, 25 000 075, 250 000.75)
is exactly representable, so the rational model is exact. -/
theorem updateProgress_downloaded_diverges :
    updateProgressDownloaded 1000003
      [chunkProgressOf 0 250000, chunkProgressOf 0 250000,
       chunkProgressOf 0 250000, chunkProgressOf 250003 250003] 4 =
      250000 ∧
    ([(0 : Int), 0, 0, 250003].sum = 250003) ∧
    (250000 : Int) ≠ 250003 := by
  refine ⟨?_, by decide, by decide⟩
  have hs : ([chunkProgressOf 0 250000, chunkProgressOf 0 250000,
      chunkProgressOf 0 250000,
      chunkProgressOf 250003 250003] : List ℚ).sum = 100 := by
    norm_num [chunkProgressOf]
  unfold updateProgressDownloaded progressOf
  rw [hs]
  rw [Int.floor_eq_iff]
  constructor <;> norm_num

end Datablip
